import Mathlib

/-!
Verification of the fairness-aware classifier-optimisation harness
(`setting_D/fal_model.py`, `setting_D/frf_model.py`,
`trad_setting_E/adult_lr_model.py`) against its natural-language
specification.

Numeric values (predicted probabilities, AUC scores, losses) are modelled
as rationals (`Rat`): every quantity the scripts compute with is a finite
ratio of counts, except for the explicitly modelled non-finite floats,
which are represented by the dedicated `PFloat` type below.
-/

namespace ShipBreaking

/-- Model of `numpy.argmin` on a list of rationals: the index of the first
occurrence of the minimum value, `none` on an empty list (where `np.argmin`
raises `ValueError`). -/
def np_argmin : List Rat → Option Nat
  | [] => none
  | x :: xs =>
    match np_argmin xs with
    | none => some 0
    | some j =>
      match xs.get? j with
      | none => some 0
      | some m => if x ≤ m then some 0 else some (j + 1)

/-- Decidable equality for `Except`, used to evaluate the embedded
functions on concrete inputs in witnesses and counterexamples. -/
instance instDecEqExcept (e a : Type) [DecidableEq e] [DecidableEq a] :
    DecidableEq (Except e a)
  | .ok x, .ok y =>
    if h : x = y then .isTrue (by rw [h])
    else .isFalse (by intro hc; cases hc; exact h rfl)
  | .ok _, .error _ => .isFalse (by intro hc; cases hc)
  | .error _, .ok _ => .isFalse (by intro hc; cases hc)
  | .error x, .error y =>
    if h : x = y then .isTrue (by rw [h])
    else .isFalse (by intro hc; cases hc; exact h rfl)

/-- Status value `hyperopt.STATUS_OK` recorded on every successful trial. -/
def STATUS_OK : String := "ok"

/-- One hyperopt trial record, holding the fields of the Python result dict
`{'loss': ..., 'status': ..., 'trained_model': ...}` that `best_model`
reads.  The trained model / parameter payload is abstracted to an
identifier. -/
structure Trial where
  status : String
  loss : Rat
  trained_model : Nat
  deriving DecidableEq, Repr

/-- The sub-list of trials whose status is `STATUS_OK`, as computed by
`best_model`'s list comprehension
`[trial for trial in trials if STATUS_OK == trial['result']['status']]`. -/
def validTrials (trials : List Trial) : List Trial :=
  trials.filter (fun t => STATUS_OK == t.status)

/-- Model of `best_model` (identical in all three scripts): filter the
successful trials, take `np.argmin` of their losses, and return that
trial's `trained_model`.  `np.argmin` on an empty loss list raises, which
is modelled by the error branch. -/
def best_model (trials : List Trial) : Except String Nat :=
  let valid_trial_list := validTrials trials
  let losses := valid_trial_list.map (fun t => t.loss)
  match np_argmin losses with
  | none => Except.error "attempt to get argmin of an empty sequence"
  | some i =>
    match valid_trial_list.get? i with
    | none => Except.error "list index out of range"
    | some t => Except.ok t.trained_model

/-- Concrete trial log with successful-trial losses `[0.3, -0.1, 0.5]`,
the example used by the spec's best-trial selection property. -/
def c2Trials : List Trial :=
  [⟨STATUS_OK, mkRat 3 10, 10⟩, ⟨STATUS_OK, mkRat (-1) 10, 11⟩,
   ⟨STATUS_OK, mkRat 5 10, 12⟩]

/-- Concrete trial log in which every trial has a non-success status. -/
def c3Trials : List Trial :=
  [⟨"fail", mkRat 1 2, 7⟩, ⟨"new", -3, 8⟩]

/-- Contribution of one (positive, negative) score pair to twice the
Mann-Whitney statistic: 2 for a correctly ordered pair, 1 for a tie,
0 otherwise. -/
def pairTerm (p n : Rat) : Rat := if n < p then 2 else if n = p then 1 else 0

/-- Scores of the records whose label is `true`. -/
def posScores (y_true : List Bool) (y_score : List Rat) : List Rat :=
  ((y_true.zip y_score).filter (fun pr => pr.1)).map Prod.snd

/-- Scores of the records whose label is `false`. -/
def negScores (y_true : List Bool) (y_score : List Rat) : List Rat :=
  ((y_true.zip y_score).filter (fun pr => !pr.1)).map Prod.snd

/-- Twice the Mann-Whitney count of the positive/negative score pairs. -/
def aucNum (pos neg : List Rat) : Rat :=
  (pos.map (fun p => (neg.map (fun n => pairTerm p n)).sum)).sum

/-- Model of `sklearn.metrics.roc_auc_score` for binary labels and finite
scores: the Mann-Whitney / Wilcoxon form of the area under the ROC curve,
`(#{pairs ranked correctly} + #{ties}/2) / (#pos * #neg)`.  The division
is the rational one (the code never reaches the zero-denominator case,
where sklearn would raise a single-class `ValueError`). -/
def roc_auc_score (y_true : List Bool) (y_score : List Rat) : Rat :=
  aucNum (posScores y_true y_score) (negScores y_true y_score) /
    (2 * ((posScores y_true y_score).length : Rat) *
      ((negScores y_true y_score).length : Rat))

/-- Insert an integer into a sorted duplicate-free list, keeping it sorted
and duplicate-free. -/
def insertUnique (x : Int) : List Int → List Int
  | [] => [x]
  | y :: ys => if x < y then x :: y :: ys else if x = y then y :: ys else y :: insertUnique x ys

/-- Model of `numpy.unique`: the sorted list of distinct values. -/
def np_unique (l : List Int) : List Int := l.foldr insertUnique []

/-- The symmetrized AUC `max(1-auc, auc)` of the indicator of one
protected value `u` against the predicted probabilities, as computed in
the inner loop of `strong_demographic_parity_score`. -/
def symAuc (col : List Int) (y_prob : List Rat) (u : Int) : Rat :=
  let auc := roc_auc_score (col.map (fun v => v == u)) y_prob
  max (1 - auc) auc

/-- Per-column body of `strong_demographic_parity_score`: score 1 for a
single-valued column, otherwise the maximum symmetrized AUC over the
column's distinct values (starting from the accumulator `sens_auc = 0`). -/
def column_score (col : List Int) (y_prob : List Rat) : Rat :=
  let uniqs := np_unique col
  if uniqs.length == 1 then 1
  else uniqs.foldl (fun sens_auc u => max sens_auc (symAuc col y_prob u)) 0

/-- Model of `strong_demographic_parity_score` (identical in the scripts
that define it).  `s` is given as a list of protected columns (the code's
`s.reshape(-1,1)` turns a 1-D input into a single column).  With exactly
one column the final line `sdp = abs(2*s_auc-1)` acts on a float; with
any other number of columns `s_auc` is a Python list, where `2*s_auc`
is list repetition and the subtraction `- 1` raises a `TypeError`,
modelled by the error branch. -/
def strong_demographic_parity_score (s : List (List Int)) (y_prob : List Rat) :
    Except String Rat :=
  let sensitive_aucs := s.map (fun col => column_score col y_prob)
  match sensitive_aucs with
  | [a] => Except.ok |2 * a - 1|
  | _ => Except.error "TypeError: unsupported operand for -: list and int"

/-- Modelled from the spec: with multiple protected columns the
`abs(2s-1)` transform is applied per column, "producing a sequence" of
per-column scores (spec sections 4.2 and 8).  Stated only for comparison
with the behaviour of the source-derived definition. -/
def spec_sdp_columns (s : List (List Int)) (y_prob : List Rat) : List Rat :=
  (s.map (fun col => column_score col y_prob)).map (fun a => |2 * a - 1|)

/-- Per-category probabilities `count_p = counts / sum(counts)` computed
by `Clamper._get_values_to_keep_from_value_counts` from a pandas
`value_counts` result, given as (value, count) pairs in `value_counts`
order (count-descending).  The program divides in IEEE-754 float64; the
model divides exactly in the rationals, and is therefore faithful to the
program exactly on those inputs where no comparison downstream is flipped
by float64 rounding — in particular wherever every compared quantity is
exactly representable in binary64, as in the concrete inputs used
below. -/
def clamp_count_p (vc : List (String × Nat)) : List Rat :=
  (vc.map Prod.snd).map (fun (c : Nat) => (c : Rat) / (((vc.map Prod.snd).sum : Nat) : Rat))

/-- The reference threshold `min_p_increase = 1/len(values)`. -/
def clamp_threshold (vc : List (String × Nat)) : Rat := 1 / (vc.length : Rat)

/-- The array `abs(count_p - min_p_increase)` whose argmin the code takes. -/
def clamp_dists (vc : List (String × Nat)) : List Rat :=
  (clamp_count_p vc).map (fun p => |p - clamp_threshold vc|)

/-- Model of `Clamper._get_values_to_keep_from_value_counts`: keep the
prefix `values[:index_to_keep]` where `index_to_keep` is `np.argmin` of
the distances `|count_p - 1/len(values)|` — the first index of the
minimal distance.  The distances are the exact-rational ones of
`clamp_dists`; see the note there and on `clamp_count_p` on where this
coincides with the program's float64 arithmetic.  The `none` branch is
unreachable for non-empty value counts. -/
def get_values_to_keep (vc : List (String × Nat)) : List String :=
  match np_argmin (clamp_dists vc) with
  | some k => (vc.map Prod.fst).take k
  | none => []

/-- Modelled from the spec: the "minimal ordered prefix of its
value-frequency-ranked categories such that the marginal probability
increment crosses a reference threshold of 1/(number of distinct
categories)" (spec section 4.1) — the prefix of categories strictly
before the first one whose probability has crossed below the threshold.
Stated only for comparison with the source-derived definition. -/
def spec_values_to_keep (vc : List (String × Nat)) : List String :=
  (vc.map Prod.fst).take
    ((clamp_count_p vc).findIdx (fun p => p < clamp_threshold vc))

/-- The column transformation applied by `Clamper.transform` and
`Clamper.fit_transform`: every value outside the retained set is remapped
to the literal category "other". -/
def clamp_column (keep : List String) (col : List String) : List String :=
  col.map (fun v => if keep.contains v then v else "other")

/-- Concrete value counts (already count-descending) on which the code's
nearest-to-threshold argmin rule and the spec's threshold-crossing rule
disagree: probabilities [0.26, 0.25, 0.25, 0.24], threshold 1/4.  The
input is chosen so that the float64 and exact-rational traces coincide:
the minimal distance is exactly 0 (0.25 and 1/4 are both exactly
representable in binary64, so `0.25 - 0.25` is exactly 0.0 in the
program as well), it is attained first at index 1, and the spec's
crossing comparisons `0.25 < 0.25` (false) and `0.24 < 0.25` (true) have
the same outcomes in float64 and in the rationals. -/
def c4Vc : List (String × Nat) := [("a", 26), ("b", 25), ("c", 25), ("d", 24)]

/-- A Python float as seen by `math.isfinite`: either a finite value
(modelled exactly as a rational) or one of the non-finite values NaN,
+inf, -inf. -/
inductive PFloat where
  | finite : Rat → PFloat
  | nan : PFloat
  | inf : PFloat
  | neg_inf : PFloat
  deriving DecidableEq, Repr

/-- Model of `math.isfinite`. -/
def PFloat.isfinite : PFloat → Bool
  | PFloat.finite _ => true
  | _ => false

/-- The rational value of a finite float; the junk value 0 on non-finite
inputs is only ever used behind a finiteness guard. -/
def PFloat.toRat : PFloat → Rat
  | PFloat.finite q => q
  | _ => 0

/-- sklearn's input validation inside `roc_auc_score`: a NaN or infinite
score raises a `ValueError` before any AUC computation; on all-finite
scores the AUC itself is computed. -/
def sk_roc_auc_score (y_true : List Bool) (scores : List PFloat) :
    Except String Rat :=
  if scores.any (fun p => !(PFloat.isfinite p)) then
    Except.error "ValueError: Input contains NaN, infinity or a value too large"
  else Except.ok (roc_auc_score y_true (scores.map PFloat.toRat))

/-- The data one evaluator fold sees once the classifier has produced its
predictions: test labels, test protected attribute, and predicted
positive-class probabilities. -/
structure FoldEval where
  y_true : List Bool
  s_test : List Bool
  y_pred_probs : List PFloat
  deriving DecidableEq, Repr

/-- Per-fold scores of `cross_val_score_custom` in `fal_model.py`:
`nan_inf_error_list = [math.isfinite(x) for x in y_pred_probs]` followed
by `if 0.0 in nan_inf_error_list` (Python's `0.0 == False` makes this a
non-finiteness test) forces the sentinel pair (0.5, 0.5); otherwise the
fold records `(AUC(y_true), 0.5 + |0.5 - AUC(s_test)|)`. -/
def fal_fold_scores (fd : FoldEval) : Rat × Rat :=
  if (fd.y_pred_probs.map PFloat.isfinite).contains false then (1/2, 1/2)
  else (roc_auc_score fd.y_true (fd.y_pred_probs.map PFloat.toRat),
    1/2 + |1/2 - roc_auc_score fd.s_test (fd.y_pred_probs.map PFloat.toRat)|)

/-- Per-fold scores of `cross_val_score_custom` in `adult_lr_model.py`:
the two scores are appended with no finiteness guard, so sklearn's
validation error propagates out of the fold loop. -/
def adult_fold_scores (fd : FoldEval) : Except String (Rat × Rat) :=
  match sk_roc_auc_score fd.y_true fd.y_pred_probs with
  | Except.error e => Except.error e
  | Except.ok p =>
    match sk_roc_auc_score fd.s_test fd.y_pred_probs with
    | Except.error e => Except.error e
    | Except.ok f => Except.ok (p, 1/2 + |1/2 - f|)

/-- Per-fold score of `cross_val_score_custom` in `frf_model.py`: a single
performance AUC — no fairness score and no finiteness guard. -/
def frf_fold_score (fd : FoldEval) : Except String Rat :=
  sk_roc_auc_score fd.y_true fd.y_pred_probs

/-- `np.nanmean` over the collected fold scores; the embedded per-fold
scores are never NaN, so this is the plain mean. -/
def listMean (l : List Rat) : Rat := l.sum / (l.length : Rat)

/-- `cross_val_score_custom` of `fal_model.py` over the folds' data: the
pair of mean performance and mean fairness scores. -/
def cross_val_fal (folds : List FoldEval) : Rat × Rat :=
  (listMean ((folds.map fal_fold_scores).map Prod.fst),
   listMean ((folds.map fal_fold_scores).map Prod.snd))

/-- The fold loop of `cross_val_score_custom` in `adult_lr_model.py`: the
first fold that raises aborts the whole evaluation. -/
def adult_fold_list : List FoldEval → Except String (List (Rat × Rat))
  | [] => Except.ok []
  | fd :: rest =>
    match adult_fold_scores fd with
    | Except.error e => Except.error e
    | Except.ok s =>
      match adult_fold_list rest with
      | Except.error e => Except.error e
      | Except.ok l => Except.ok (s :: l)

/-- `cross_val_score_custom` of `adult_lr_model.py`. -/
def cross_val_adult (folds : List FoldEval) : Except String (Rat × Rat) :=
  match adult_fold_list folds with
  | Except.error e => Except.error e
  | Except.ok l => Except.ok (listMean (l.map Prod.fst), listMean (l.map Prod.snd))

/-- The fold loop of `cross_val_score_custom` in `frf_model.py`. -/
def frf_fold_list : List FoldEval → Except String (List Rat)
  | [] => Except.ok []
  | fd :: rest =>
    match frf_fold_score fd with
    | Except.error e => Except.error e
    | Except.ok s =>
      match frf_fold_list rest with
      | Except.error e => Except.error e
      | Except.ok l => Except.ok (s :: l)

/-- `cross_val_score_custom` of `frf_model.py`: a single mean AUC. -/
def cross_val_frf (folds : List FoldEval) : Except String Rat :=
  match frf_fold_list folds with
  | Except.error e => Except.error e
  | Except.ok l => Except.ok (listMean l)

/-- `objective` of `fal_model.py`:
`goal = (1-theta)*roc_auc_y - theta*roc_auc_s`, recorded as
`{'loss': -goal, 'status': STATUS_OK, 'trained_model': params}`. -/
def fal_objective (theta : Rat) (params : Nat) (folds : List FoldEval) : Trial :=
  let pf := cross_val_fal folds
  let goal := (1 - theta) * pf.1 - theta * pf.2
  ⟨STATUS_OK, -goal, params⟩

/-- `objective` of `adult_lr_model.py`: same loss formula as in
`fal_model.py`, with the evaluator's error (if any) propagating. -/
def adult_objective (theta : Rat) (params : Nat) (folds : List FoldEval) :
    Except String Trial :=
  match cross_val_adult folds with
  | Except.error e => Except.error e
  | Except.ok pf =>
    Except.ok ⟨STATUS_OK, -((1 - theta) * pf.1 - theta * pf.2), params⟩

/-- `objective` of `frf_model.py`: theta is passed into the
`FairRandomForestClassifier` constructor (part of the abstracted
`params`), and the recorded loss is `-roc_auc` for the evaluator's single
cross-validated score — no fairness term appears in the loss. -/
def frf_objective (params : Nat) (folds : List FoldEval) : Except String Trial :=
  match cross_val_frf folds with
  | Except.error e => Except.error e
  | Except.ok r => Except.ok ⟨STATUS_OK, -r, params⟩

/-- Test-set positions for one fold of a k-fold split: sklearn's
`_BaseKFold.split` yields, for fold `f`, the positions whose test-fold
assignment equals `f`.  The stratified assignment itself is abstracted as
the `assign` list (one fold id per position). -/
def kfold_testset (assign : List Nat) (f : Nat) : List Nat :=
  (List.range assign.length).filter (fun i => assign.getD i 0 == f)

/-- Train-set positions for one fold: the complement of the test mask, in
position order, exactly as sklearn's `split` computes it. -/
def kfold_trainset (assign : List Nat) (f : Nat) : List Nat :=
  (List.range assign.length).filter (fun i => !(assign.getD i 0 == f))

/-- The rows of a pandas DataFrame as (position, index label) pairs. -/
def table_rows (labels : List Nat) : List (Nat × Nat) := labels.enum

/-- `X[X.index.isin(idxset)]`: keep the rows whose index LABEL is a
member of the given index set (the sets produced by the splitter hold
POSITIONS; the code compares them against labels). -/
def select_rows (rows : List (Nat × Nat)) (idxset : List Nat) : List (Nat × Nat) :=
  rows.filter (fun r => idxset.contains r.2)

/-- Linear-interpolation percentile (`numpy.percentile` default) of an
already sorted list of observed values. -/
def linInterp (a : List Rat) (p : Rat) : Rat :=
  match a with
  | [] => 0
  | _ :: _ =>
    let pos := p * ((a.length : Rat) - 1) / 100
    let i := pos.floor.toNat
    let frac := pos - (i : Rat)
    let lo := a.getD i 0
    let hi := a.getD (i + 1) lo
    lo + frac * (hi - lo)

/-- Insertion step of an ascending sort of rationals. -/
def insertSorted (x : Rat) : List Rat → List Rat
  | [] => [x]
  | y :: ys => if x ≤ y then x :: y :: ys else y :: insertSorted x ys

/-- Ascending sort of a list of rationals. -/
def sortRat (l : List Rat) : List Rat := l.foldr insertSorted []

/-- The observed (non-missing) values of a column; a missing entry is
`none` (a float NaN in the data). -/
def finiteVals (col : List (Option Rat)) : List Rat := col.filterMap id

/-- `np.nanmedian`: the 50th percentile of the observed values. -/
def robust_center (col : List (Option Rat)) : Rat :=
  linInterp (sortRat (finiteVals col)) 50

/-- `RobustScaler`'s scale: the interquartile range of the observed
values, with sklearn's `_handle_zeros_in_scale` mapping a zero scale
to 1. -/
def robust_scale_factor (col : List (Option Rat)) : Rat :=
  let s := linInterp (sortRat (finiteVals col)) 75 -
    linInterp (sortRat (finiteVals col)) 25
  if s == 0 then 1 else s

/-- `RobustScaler.transform` on one column: `(x - median) / IQR`,
missing entries stay missing. -/
def robust_transform_col (col : List (Option Rat)) : List (Option Rat) :=
  col.map (Option.map (fun v => (v - robust_center col) / robust_scale_factor col))

/-- `RobustScaler.fit_transform` on the columns of the numeric block (fit
state and transform computed from the same data, per column). -/
def robust_fit_transform (cols : List (List (Option Rat))) : List (List (Option Rat)) :=
  cols.map robust_transform_col

/-- The custom `MissIndicator.fit_transform`:
`np.concatenate([X, self.mi.transform(X)], axis=1)` with sklearn's
`MissingIndicator(sparse=False, error_on_new=False)` — whose default
`features='missing-only'` yields one indicator column per input column
that has a missing entry at fit time, in input-column order. -/
def missindicator_fit_transform (cols : List (List (Option Rat))) :
    List (List (Option Rat)) :=
  cols ++ ((cols.filter (fun c => c.any Option.isNone)).map
    (fun c => c.map (fun v => some (if v.isNone then (1 : Rat) else 0))))

/-- `SimpleImputer().fit_transform` with the default mean strategy:
columns entirely missing at fit time are dropped, and missing entries are
replaced by the column mean of the observed values. -/
def simpleimputer_fit_transform (cols : List (List (Option Rat))) :
    List (List Rat) :=
  (cols.filter (fun c => c.any Option.isSome)).map
    (fun c => c.map (fun v => v.getD (listMean (finiteVals c))))

/-- `num_transformer.fit_transform`: the pipeline
`RobustScaler -> MissIndicator -> SimpleImputer` applied to the numeric
columns (each step fit on its input, per sklearn `Pipeline`). -/
def num_transformer_fit_transform (cols : List (List (Option Rat))) :
    List (List Rat) :=
  simpleimputer_fit_transform (missindicator_fit_transform (robust_fit_transform cols))

/-- Number of occurrences of a value in a column. -/
def countOccs (col : List String) (v : String) : Nat :=
  (col.filter (fun x => x == v)).length

/-- The distinct values of a column in order of first appearance. -/
def firstDistinct (l : List String) : List String :=
  match l with
  | [] => []
  | x :: xs => x :: firstDistinct (xs.filter (fun y => !(y == x)))
termination_by l.length
decreasing_by
  simp only [List.length_cons]
  exact Nat.lt_succ_of_le (List.length_filter_le _ _)

/-- Insert into a count-descending list, after every strictly larger
count (stable for equal counts). -/
def insertByCountDesc (x : String × Nat) :
    List (String × Nat) → List (String × Nat)
  | [] => [x]
  | y :: ys => if x.2 < y.2 then y :: insertByCountDesc x ys else x :: y :: ys

/-- Stable sort by descending count. -/
def sortByCountDesc : List (String × Nat) → List (String × Nat)
  | [] => []
  | x :: xs => insertByCountDesc x (sortByCountDesc xs)

/-- Model of `pandas.Series.value_counts`: distinct values with their
counts, sorted by descending count. -/
def value_counts (col : List String) : List (String × Nat) :=
  sortByCountDesc ((firstDistinct col).map (fun v => (v, countOccs col v)))

/-- The `Clamper` state: the `is_fit` flag and the `values_to_keep` dict,
modelled as a finite map from column name to retained values. -/
structure Clamper where
  is_fit : Bool
  values_to_keep : String → Option (List String)

/-- A freshly constructed `Clamper()` (empty dict, not fit). -/
def Clamper.init : Clamper := ⟨false, fun _ => none⟩

/-- Python dict assignment `d[k] = v`. -/
def dictInsert (d : String → Option (List String)) (k : String)
    (v : List String) : String → Option (List String) :=
  fun q => if q == k then some v else d q

/-- The dict produced by `Clamper.fit`'s column loop, starting from the
dict `d` already held by the instance. -/
def fitDict (d : String → Option (List String))
    (X : List (String × List String)) : String → Option (List String) :=
  X.foldl (fun d col => dictInsert d col.1
    (get_values_to_keep (value_counts col.2))) d

/-- Model of `Clamper.fit`: record the values to keep per column and set
`is_fit`. -/
def Clamper.fit (c : Clamper) (X : List (String × List String)) : Clamper :=
  ⟨true, fitDict c.values_to_keep X⟩

/-- The column loop of `Clamper.transform`: looking up an unfitted column
raises a `KeyError` (at the first such column). -/
def transformCols (d : String → Option (List String)) :
    List (String × List String) → Except String (List (String × List String))
  | [] => Except.ok []
  | col :: rest =>
    match d col.1 with
    | none => Except.error "KeyError"
    | some keep =>
      match transformCols d rest with
      | Except.error e => Except.error e
      | Except.ok t => Except.ok ((col.1, clamp_column keep col.2) :: t)

/-- Model of `Clamper.transform`. -/
def Clamper.transform (c : Clamper) (X : List (String × List String)) :
    Except String (List (String × List String)) :=
  transformCols c.values_to_keep X

/-- The column loop of `Clamper.fit_transform`: each column is clamped
with the retained set computed for it in the same iteration, while the
dict accumulates. -/
def fit_transform_cols (d : String → Option (List String)) :
    List (String × List String) →
      ((String → Option (List String)) × List (String × List String))
  | [] => (d, [])
  | col :: rest =>
    let keep := get_values_to_keep (value_counts col.2)
    let d1 := dictInsert d col.1 keep
    let p := fit_transform_cols d1 rest
    (p.1, (col.1, clamp_column keep col.2) :: p.2)

/-- Model of `Clamper.fit_transform`: the updated instance and the
transformed table. -/
def Clamper.fit_transform (c : Clamper) (X : List (String × List String)) :
    Clamper × List (String × List String) :=
  let p := fit_transform_cols c.values_to_keep X
  (⟨true, p.1⟩, p.2)

/-- A fitted clamper keeping only "a" for column "col". -/
def c10Clamper : Clamper := ⟨true, dictInsert (fun _ => none) "col" ["a"]⟩

/-- Concrete one-column table for the C10 witness. -/
def c10X : List (String × List String) := [("col", ["a", "b"])]

/-- Its clamped image. -/
def c10Y : List (String × List String) := [("col", ["a", "other"])]

/-- Concrete fold with a NaN prediction, used against C5. -/
def c5Fold : FoldEval :=
  ⟨[false, true], [false, true], [PFloat.nan, PFloat.finite (mkRat 1 2)]⟩

/-- Concrete fold with an infinite prediction, used in the C5 witness. -/
def c5FoldW : FoldEval :=
  ⟨[false, true], [true, false], [PFloat.inf, PFloat.finite (mkRat 1 3)]⟩

/-- Concrete all-finite fold with perfect predictions (AUC 1). -/
def c6Fold1 : FoldEval :=
  ⟨[false, true], [false, true],
   [PFloat.finite (mkRat 1 4), PFloat.finite (mkRat 3 4)]⟩

/-- Concrete single-fold evaluator input used for C6. -/
def c6Folds : List FoldEval := [c6Fold1]

/-- Concrete two-column protected input used against C1. -/
def c1S : List (List Int) := [[0, 1], [1, 0]]

/-- Concrete predicted probabilities [0.25, 0.75] used against C1. -/
def c1Prob : List Rat := [mkRat 1 4, mkRat 3 4]

end ShipBreaking

namespace ShipBreaking

theorem np_argmin_cons_isSome (x : Rat) (xs : List Rat) :
    (np_argmin (x :: xs)).isSome := by
  simp only [np_argmin]
  split
  · rfl
  · split
    · rfl
    · split <;> rfl

theorem np_argmin_eq_none_iff (l : List Rat) : np_argmin l = none ↔ l = [] := by
  constructor
  · intro h
    cases l with
    | nil => rfl
    | cons x xs =>
      have hs := np_argmin_cons_isSome x xs
      rw [h] at hs
      simp at hs
  · intro h; subst h; rfl

theorem np_argmin_spec (l : List Rat) (i : Nat) (h : np_argmin l = some i) :
    ∃ x, l.get? i = some x ∧
      (∀ j y, l.get? j = some y → x ≤ y) ∧
      (∀ j y, j < i → l.get? j = some y → x < y) := by
  induction l generalizing i with
  | nil => simp [np_argmin] at h
  | cons a as ih =>
    simp only [np_argmin] at h
    split at h
    · -- tail argmin is none, hence the tail is empty
      rename_i has
      have hnil : as = [] := (np_argmin_eq_none_iff as).mp has
      subst hnil
      have hi : i = 0 := (Option.some.inj h).symm
      subst hi
      refine ⟨a, rfl, ?_, ?_⟩
      · intro j y hy
        cases j with
        | zero =>
          have hay : a = y := by simpa using hy
          exact le_of_eq hay
        | succ k => simp at hy
      · intro j y hj hy; omega
    · rename_i j has
      obtain ⟨m, hm, hmin, hstrict⟩ := ih j has
      split at h
      · -- the inner lookup cannot miss: the tail argmin index is in range
        rename_i hget
        rw [hm] at hget
        cases hget
      · rename_i m' hget
        rw [hm] at hget
        obtain rfl : m = m' := Option.some.inj hget
        split at h
        · rename_i hle
          have hi : i = 0 := (Option.some.inj h).symm
          subst hi
          refine ⟨a, rfl, ?_, ?_⟩
          · intro k y hy
            cases k with
            | zero =>
              have hay : a = y := by simpa using hy
              exact le_of_eq hay
            | succ kk =>
              simp only [List.get?_cons_succ] at hy
              exact le_trans hle (hmin kk y hy)
          · intro k y hk hy; omega
        · rename_i hle
          push_neg at hle
          have hi : i = j + 1 := (Option.some.inj h).symm
          subst hi
          refine ⟨m, by simpa using hm, ?_, ?_⟩
          · intro k y hy
            cases k with
            | zero =>
              have hay : a = y := by simpa using hy
              subst hay
              exact le_of_lt hle
            | succ kk =>
              simp only [List.get?_cons_succ] at hy
              exact hmin kk y hy
          · intro k y hk hy
            cases k with
            | zero =>
              have hay : a = y := by simpa using hy
              subst hay
              exact hle
            | succ kk =>
              simp only [List.get?_cons_succ] at hy
              exact hstrict kk y (by omega) hy

end ShipBreaking

namespace ShipBreaking

/-- C2: for every trial log, whenever `best_model` returns a model, that
model belongs to a successful trial of minimal loss among the successful
trials, ties broken in favor of the earliest-inserted one; trials whose
status is not success are never selected (the selected trial always has
status `STATUS_OK`).  Instantiated by its witness at the spec's example
losses `[0.3, -0.1, 0.5]`, where the trial at index 1 is returned. -/
theorem C2_best_model_selects_min (trials : List Trial) (m : Nat)
    (h : best_model trials = Except.ok m) :
    ∃ i t, (validTrials trials).get? i = some t ∧
      t.status = STATUS_OK ∧ t.trained_model = m ∧
      (∀ j u, (validTrials trials).get? j = some u → t.loss ≤ u.loss) ∧
      (∀ j u, j < i → (validTrials trials).get? j = some u → t.loss < u.loss) := by
  simp only [best_model] at h
  split at h
  · cases h
  · rename_i i hargmin
    split at h
    · cases h
    · rename_i t hget
      obtain rfl : t.trained_model = m := Except.ok.inj h
      obtain ⟨x, hx, hmin, hstrict⟩ := np_argmin_spec _ i hargmin
      rw [List.get?_map, hget] at hx
      simp only [Option.map_some', Option.some.injEq] at hx
      subst hx
      have htmem : t ∈ validTrials trials := List.get?_mem hget
      have hstat : t.status = STATUS_OK := by
        have hf := (List.mem_filter.mp htmem).2
        simp only [beq_iff_eq] at hf
        exact hf.symm
      refine ⟨i, t, hget, hstat, rfl, ?_, ?_⟩
      · intro j u hu
        exact hmin j u.loss (by rw [List.get?_map, hu]; rfl)
      · intro j u hj hu
        exact hstrict j u.loss hj (by rw [List.get?_map, hu]; rfl)

/-- Witness for C2 at the spec's concrete example: successful losses
`[0.3, -0.1, 0.5]` select the trial at index 1 (model id 11). -/
theorem C2_witness :
    best_model c2Trials = Except.ok 11 ∧
    (∃ i t, (validTrials c2Trials).get? i = some t ∧
      t.status = STATUS_OK ∧ t.trained_model = 11 ∧
      (∀ j u, (validTrials c2Trials).get? j = some u → t.loss ≤ u.loss) ∧
      (∀ j u, j < i → (validTrials c2Trials).get? j = some u → t.loss < u.loss)) :=
  ⟨by decide, C2_best_model_selects_min c2Trials 11 (by decide)⟩

/-- C3: if every trial in the log has a non-success status, `best_model`
raises (models `np.argmin` on an empty loss sequence raising `ValueError`)
rather than returning any trial. -/
theorem C3_all_failed_raises (trials : List Trial)
    (h : ∀ t ∈ trials, t.status ≠ STATUS_OK) :
    ∃ e, best_model trials = Except.error e := by
  have hval : validTrials trials = [] := by
    refine List.filter_eq_nil.mpr ?_
    intro t ht
    simp only [beq_iff_eq]
    exact fun hc => h t ht hc.symm
  refine ⟨"attempt to get argmin of an empty sequence", ?_⟩
  simp [best_model, hval, np_argmin]

/-- Witness for C3: a log of two failed trials makes `best_model` raise. -/
theorem C3_witness :
    (∀ t ∈ c3Trials, t.status ≠ STATUS_OK) ∧
    (∃ e, best_model c3Trials = Except.error e) :=
  ⟨by decide, C3_all_failed_raises c3Trials (by decide)⟩

end ShipBreaking

namespace ShipBreaking

theorem pairTerm_nonneg (p n : Rat) : 0 ≤ pairTerm p n := by
  unfold pairTerm
  split
  · norm_num
  · split <;> norm_num

theorem pairTerm_le_two (p n : Rat) : pairTerm p n ≤ 2 := by
  unfold pairTerm
  split
  · norm_num
  · split <;> norm_num

theorem aucNum_nonneg (pos neg : List Rat) : 0 ≤ aucNum pos neg := by
  unfold aucNum
  apply List.sum_nonneg
  intro x hx
  obtain ⟨q, _, rfl⟩ := List.mem_map.mp hx
  apply List.sum_nonneg
  intro z hz
  obtain ⟨n, _, rfl⟩ := List.mem_map.mp hz
  exact pairTerm_nonneg q n

theorem aucNum_le (pos neg : List Rat) :
    aucNum pos neg ≤ 2 * (pos.length : Rat) * (neg.length : Rat) := by
  unfold aucNum
  have hinner : ∀ q : Rat, (neg.map (fun n => pairTerm q n)).sum ≤ 2 * (neg.length : Rat) := by
    intro q
    have h := List.sum_le_card_nsmul (neg.map (fun n => pairTerm q n)) 2 ?_
    · rw [List.length_map] at h
      calc (neg.map (fun n => pairTerm q n)).sum ≤ neg.length • (2:Rat) := h
        _ = 2 * (neg.length : Rat) := by rw [nsmul_eq_mul]; ring
    · intro x hx
      obtain ⟨n, _, rfl⟩ := List.mem_map.mp hx
      exact pairTerm_le_two q n
  have h := List.sum_le_card_nsmul (pos.map (fun q => (neg.map (fun n => pairTerm q n)).sum))
    (2 * (neg.length : Rat)) ?_
  · rw [List.length_map] at h
    calc (pos.map (fun q => (neg.map (fun n => pairTerm q n)).sum)).sum
        ≤ pos.length • (2 * (neg.length : Rat)) := h
      _ = 2 * (pos.length : Rat) * (neg.length : Rat) := by rw [nsmul_eq_mul]; ring
  · intro x hx
    obtain ⟨q, _, rfl⟩ := List.mem_map.mp hx
    exact hinner q

theorem roc_auc_score_nonneg (y : List Bool) (p : List Rat) :
    0 ≤ roc_auc_score y p := by
  unfold roc_auc_score
  apply div_nonneg (aucNum_nonneg _ _)
  positivity

theorem roc_auc_score_le_one (y : List Bool) (p : List Rat) :
    roc_auc_score y p ≤ 1 := by
  unfold roc_auc_score
  set a := posScores y p with ha
  set b := negScores y p with hb
  rcases Nat.eq_zero_or_pos a.length with h0 | hpos
  · rw [h0]
    norm_num
  · rcases Nat.eq_zero_or_pos b.length with h0 | hneg
    · rw [h0]
      norm_num
    · apply div_le_one_of_le (aucNum_le a b)
      positivity

theorem symAuc_nonneg (col : List Int) (y_prob : List Rat) (u : Int) :
    0 ≤ symAuc col y_prob u := by
  unfold symAuc
  have h := roc_auc_score_le_one (col.map (fun v => v == u)) y_prob
  apply le_max_of_le_left
  linarith

theorem symAuc_le_one (col : List Int) (y_prob : List Rat) (u : Int) :
    symAuc col y_prob u ≤ 1 := by
  unfold symAuc
  have h1 := roc_auc_score_le_one (col.map (fun v => v == u)) y_prob
  have h2 := roc_auc_score_nonneg (col.map (fun v => v == u)) y_prob
  apply max_le <;> linarith

theorem foldl_max_le_one (l : List Int) (f : Int → Rat) (hf : ∀ u, f u ≤ 1) :
    ∀ acc : Rat, acc ≤ 1 → l.foldl (fun a u => max a (f u)) acc ≤ 1 := by
  induction l with
  | nil => intro acc h; simpa using h
  | cons x xs ih =>
    intro acc h
    simp only [List.foldl_cons]
    exact ih (max acc (f x)) (max_le h (hf x))

theorem le_foldl_max (l : List Int) (f : Int → Rat) :
    ∀ acc : Rat, acc ≤ l.foldl (fun a u => max a (f u)) acc := by
  induction l with
  | nil => intro acc; simp
  | cons x xs ih =>
    intro acc
    simp only [List.foldl_cons]
    exact le_trans (le_max_left acc (f x)) (ih (max acc (f x)))

theorem column_score_nonneg (col : List Int) (y_prob : List Rat) :
    0 ≤ column_score col y_prob := by
  simp only [column_score]
  split
  · norm_num
  · exact le_foldl_max _ _ 0

theorem column_score_le_one (col : List Int) (y_prob : List Rat) :
    column_score col y_prob ≤ 1 := by
  simp only [column_score]
  split
  · norm_num
  · exact foldl_max_le_one _ _ (symAuc_le_one col y_prob) 0 (by norm_num)

end ShipBreaking

namespace ShipBreaking

/-- Counterexample to C1: on a two-column protected input the function
does not return the sequence of per-column `|2s-1|` scores (the value the
spec describes would be `[1, 1]` here); instead the final line
`abs(2*s_auc-1)` raises a `TypeError`, because `s_auc` is a Python list. -/
theorem C1_counterexample :
    strong_demographic_parity_score c1S c1Prob =
      Except.error "TypeError: unsupported operand for -: list and int" ∧
    spec_sdp_columns c1S c1Prob = [1, 1] := by
  constructor
  · rfl
  · show spec_sdp_columns [[0, 1], [1, 0]] [mkRat 1 4, mkRat 3 4] = [1, 1]
    norm_num [spec_sdp_columns, column_score, np_unique, insertUnique, symAuc,
      roc_auc_score, aucNum, posScores, negScores, pairTerm, mkRat]

/-- C1 (amended): for every input with more than one protected column,
`strong_demographic_parity_score` raises a `TypeError` (in Python,
`2*s_auc` on the list of per-column scores is list repetition, and
subtracting `1` from a list is unsupported); no per-column sequence is
returned. -/
theorem C1_multi_column_raises (s : List (List Int)) (y_prob : List Rat)
    (h : 2 ≤ s.length) :
    strong_demographic_parity_score s y_prob =
      Except.error "TypeError: unsupported operand for -: list and int" := by
  match s with
  | [] => simp at h
  | [a] => simp at h
  | a :: b :: t => rfl

/-- Witness for C1 at a concrete three-column input. -/
theorem C1_witness :
    2 ≤ ([[0], [1], [2]] : List (List Int)).length ∧
    strong_demographic_parity_score [[0], [1], [2]] [mkRat 1 2] =
      Except.error "TypeError: unsupported operand for -: list and int" :=
  ⟨by decide, C1_multi_column_raises [[0], [1], [2]] [mkRat 1 2] (by decide)⟩

/-- Counterexample to C9: the claim quantifies over multi-column protected
inputs as well, but on such an input no value at all is returned — the
function raises a `TypeError` — so no returned value lies in `[0,1]`. -/
theorem C9_counterexample :
    strong_demographic_parity_score [[0, 0, 1], [2, 3, 3]]
        [mkRat 1 10, mkRat 2 10, mkRat 3 10] =
      Except.error "TypeError: unsupported operand for -: list and int" := rfl

/-- C9 (amended): for every single protected column (the 1-D input case,
reshaped by the code to one column) and any finite predicted
probabilities, the returned score lies between 0 and 1 inclusive, and a
column with a single distinct value yields exactly 1. -/
theorem C9_single_column_bounds (col : List Int) (y_prob : List Rat) :
    ∃ v, strong_demographic_parity_score [col] y_prob = Except.ok v ∧
      0 ≤ v ∧ v ≤ 1 ∧ ((np_unique col).length = 1 → v = 1) := by
  refine ⟨|2 * column_score col y_prob - 1|, rfl, abs_nonneg _, ?_, ?_⟩
  · have h1 := column_score_nonneg col y_prob
    have h2 := column_score_le_one col y_prob
    rw [abs_le]
    constructor <;> linarith
  · intro hlen
    have hcs : column_score col y_prob = 1 := by
      simp only [column_score]
      simp [hlen]
    rw [hcs]
    norm_num

/-- Witness for C9 at a degenerate single-valued protected column, where
the score evaluates to exactly 1. -/
theorem C9_witness :
    strong_demographic_parity_score [[5, 5]] [mkRat 1 3, mkRat 2 3] =
      Except.ok 1 ∧
    (∃ v, strong_demographic_parity_score [[5, 5]] [mkRat 1 3, mkRat 2 3] =
      Except.ok v ∧ 0 ≤ v ∧ v ≤ 1 ∧ ((np_unique [5, 5]).length = 1 → v = 1)) :=
  ⟨by norm_num [strong_demographic_parity_score, column_score, np_unique,
      insertUnique],
   C9_single_column_bounds [5, 5] [mkRat 1 3, mkRat 2 3]⟩

end ShipBreaking

namespace ShipBreaking

/-- Counterexample to C4: on value counts with probabilities
[0.26, 0.25, 0.25, 0.24] and threshold 1/4, the distance of index 1 is
exactly 0, so `np.argmin` (first index of the minimum, here over a tie
of exact zeros that float64 arithmetic reproduces bit-for-bit) returns 1
and the code retains only ["a"]; the spec's minimal threshold-crossing
prefix is ["a", "b", "c"] (the first probability strictly below 1/4 is
0.24, at index 3). -/
theorem C4_counterexample :
    get_values_to_keep c4Vc = ["a"] ∧
    spec_values_to_keep c4Vc = ["a", "b", "c"] ∧
    get_values_to_keep c4Vc ≠ spec_values_to_keep c4Vc := by
  have hd : clamp_dists c4Vc = [mkRat 1 100, 0, 0, mkRat 1 100] := by
    norm_num [clamp_dists, clamp_count_p, clamp_threshold, c4Vc,
      abs_of_nonneg, abs_of_nonpos, Rat.mkRat_eq_div]
  have hp : clamp_count_p c4Vc = [mkRat 13 50, mkRat 1 4, mkRat 1 4, mkRat 6 25] := by
    norm_num [clamp_count_p, c4Vc, Rat.mkRat_eq_div]
  have ht : clamp_threshold c4Vc = mkRat 1 4 := by
    norm_num [clamp_threshold, c4Vc, Rat.mkRat_eq_div]
  have h1 : get_values_to_keep c4Vc = ["a"] := by
    simp only [get_values_to_keep, hd]
    decide
  have h2 : spec_values_to_keep c4Vc = ["a", "b", "c"] := by
    simp only [spec_values_to_keep, hp, ht]
    decide
  refine ⟨h1, h2, ?_⟩
  rw [h1, h2]
  decide

end ShipBreaking

namespace ShipBreaking

/-- C4 (amended): for every non-empty value-counts input, the retained set
is the prefix of the frequency-ranked categories strictly before
`np.argmin` of the distances `|count_p - 1/(number of distinct
categories)|` — the first index attaining the minimal distance — not the
spec's minimal threshold-crossing prefix; and at transform time every
value outside the retained set is remapped to the literal category
"other" while retained values pass through unchanged.  The distances are
the embedding's exact-rational ones (see `clamp_count_p`); the
characterization describes the program wherever float64 rounding flips
none of the distance comparisons, as at the witness input. -/
theorem C4_nearest_index_prefix (vc : List (String × Nat)) (h : vc ≠ [])
    (col : List String) :
    ∃ k d, (clamp_dists vc).get? k = some d ∧
      get_values_to_keep vc = (vc.map Prod.fst).take k ∧
      (∀ j e, (clamp_dists vc).get? j = some e → d ≤ e) ∧
      (∀ j e, j < k → (clamp_dists vc).get? j = some e → d < e) ∧
      (∀ i v, (clamp_column (get_values_to_keep vc) col).get? i = some v →
        (col.get? i = some v ∧ v ∈ get_values_to_keep vc) ∨
        (v = "other" ∧ ∃ w, col.get? i = some w ∧ w ∉ get_values_to_keep vc)) := by
  have hlen : (clamp_dists vc).length = vc.length := by
    simp only [clamp_dists, clamp_count_p, List.length_map]
  have hne : clamp_dists vc ≠ [] := by
    intro hc
    apply h
    rw [hc] at hlen
    exact List.eq_nil_of_length_eq_zero hlen.symm
  cases hk : np_argmin (clamp_dists vc) with
  | none => exact absurd ((np_argmin_eq_none_iff _).mp hk) hne
  | some k =>
    obtain ⟨d, hd, hmin, hstrict⟩ := np_argmin_spec _ k hk
    have hget : get_values_to_keep vc = (vc.map Prod.fst).take k := by
      simp only [get_values_to_keep, hk]
    refine ⟨k, d, hd, hget, hmin, hstrict, ?_⟩
    intro i v hv
    simp only [clamp_column] at hv
    rw [List.get?_map] at hv
    cases hw : col.get? i with
    | none => rw [hw] at hv; cases hv
    | some w =>
      rw [hw] at hv
      simp only [Option.map_some', Option.some.injEq] at hv
      by_cases hmem : (get_values_to_keep vc).contains w
      · left
        rw [if_pos hmem] at hv
        subst hv
        exact ⟨rfl, by simpa using hmem⟩
      · right
        rw [if_neg hmem] at hv
        exact ⟨hv.symm, w, rfl, by simpa using hmem⟩

/-- Witness for C4, applying the amended theorem at the concrete value
counts and checking the concrete clamped column. -/
theorem C4_witness :
    clamp_column (get_values_to_keep c4Vc) ["a", "z"] = ["a", "other"] ∧
    (∃ k d, (clamp_dists c4Vc).get? k = some d ∧
      get_values_to_keep c4Vc = (c4Vc.map Prod.fst).take k ∧
      (∀ j e, (clamp_dists c4Vc).get? j = some e → d ≤ e) ∧
      (∀ j e, j < k → (clamp_dists c4Vc).get? j = some e → d < e) ∧
      (∀ i v, (clamp_column (get_values_to_keep c4Vc) ["a", "z"]).get? i = some v →
        (["a", "z"].get? i = some v ∧ v ∈ get_values_to_keep c4Vc) ∨
        (v = "other" ∧ ∃ w, ["a", "z"].get? i = some w ∧
          w ∉ get_values_to_keep c4Vc))) := by
  constructor
  · have h1 : get_values_to_keep c4Vc = ["a"] := by
      have hd : clamp_dists c4Vc =
          [mkRat 1 100, 0, 0, mkRat 1 100] := by
        norm_num [clamp_dists, clamp_count_p, clamp_threshold, c4Vc,
          abs_of_nonneg, abs_of_nonpos, Rat.mkRat_eq_div]
      simp only [get_values_to_keep, hd]
      decide
    rw [h1]
    decide
  · exact C4_nearest_index_prefix c4Vc (by decide) ["a", "z"]

end ShipBreaking

namespace ShipBreaking

theorem contains_false_map_isfinite (l : List PFloat) :
    (l.map PFloat.isfinite).contains false =
      l.any (fun p => !(PFloat.isfinite p)) := by
  induction l with
  | nil => rfl
  | cons x xs ih =>
    cases hfx : PFloat.isfinite x with
    | true =>
      simp only [List.map_cons, List.contains_cons, List.any_cons, hfx]
      rw [ih]
      rfl
    | false =>
      simp [List.contains_cons, List.any_cons, hfx]

/-- Counterexample to C5: on a fold whose predictions contain a NaN, only
`fal_model.py` forces the 0.5/0.5 sentinel; `frf_model.py` and
`adult_lr_model.py` have no such guard, so sklearn's domain error is
raised instead of any scores being recorded. -/
theorem C5_counterexample :
    fal_fold_scores c5Fold = (1/2, 1/2) ∧
    frf_fold_score c5Fold =
      Except.error "ValueError: Input contains NaN, infinity or a value too large" ∧
    adult_fold_scores c5Fold =
      Except.error "ValueError: Input contains NaN, infinity or a value too large" := by
  refine ⟨rfl, rfl, rfl⟩

/-- C5 (amended): for every fold containing a non-finite predicted
probability, the `fal_model.py` evaluator forces that fold's scores to
the sentinel pair (0.5, 0.5), while the `frf_model.py` and
`adult_lr_model.py` evaluators raise a domain error (they have no
finiteness guard). -/
theorem C5_guard_only_in_fal (fd : FoldEval)
    (h : (fd.y_pred_probs.map PFloat.isfinite).contains false = true) :
    fal_fold_scores fd = (1/2, 1/2) ∧
    (∃ e, frf_fold_score fd = Except.error e) ∧
    (∃ e, adult_fold_scores fd = Except.error e) := by
  have hany : fd.y_pred_probs.any (fun p => !(PFloat.isfinite p)) = true := by
    rw [← contains_false_map_isfinite]
    exact h
  refine ⟨?_, ?_, ?_⟩
  · simp only [fal_fold_scores, h, if_true]
  · exact ⟨"ValueError: Input contains NaN, infinity or a value too large",
      by simp [frf_fold_score, sk_roc_auc_score, hany]⟩
  · exact ⟨"ValueError: Input contains NaN, infinity or a value too large",
      by simp [adult_fold_scores, sk_roc_auc_score, hany]⟩

/-- Witness for C5 at a fold containing an infinite prediction. -/
theorem C5_witness :
    (c5FoldW.y_pred_probs.map PFloat.isfinite).contains false = true ∧
    (fal_fold_scores c5FoldW = (1/2, 1/2) ∧
      (∃ e, frf_fold_score c5FoldW = Except.error e) ∧
      (∃ e, adult_fold_scores c5FoldW = Except.error e)) :=
  ⟨rfl, C5_guard_only_in_fal c5FoldW rfl⟩

end ShipBreaking

namespace ShipBreaking

/-- Counterexample to C6: in `frf_model.py` the recorded loss is the
negated single cross-validated AUC, not `-((1-theta)*perf - theta*fair)`.
On a fold with perfect predictions the evaluator returns the single score
1 and the objective records loss -1; the claimed formula at theta = 0.5
with both scores instantiated from the evaluator's output gives 0. -/
theorem C6_counterexample :
    cross_val_frf c6Folds = Except.ok 1 ∧
    frf_objective 6 c6Folds = Except.ok ⟨STATUS_OK, -1, 6⟩ ∧
    -(1 : Rat) ≠ -((1 - mkRat 1 2) * 1 - mkRat 1 2 * 1) := by
  have hfold : frf_fold_score c6Fold1 = Except.ok 1 := by
    simp only [frf_fold_score, sk_roc_auc_score, c6Fold1]
    norm_num [PFloat.isfinite, PFloat.toRat, roc_auc_score, aucNum,
      posScores, negScores, pairTerm]
  have hcv : cross_val_frf c6Folds = Except.ok 1 := by
    simp only [cross_val_frf, frf_fold_list, c6Folds, hfold]
    norm_num [listMean]
  refine ⟨hcv, ?_, ?_⟩
  · simp only [frf_objective, hcv]
  · norm_num [Rat.mkRat_eq_div]

/-- C6 (amended): in `fal_model.py` and `adult_lr_model.py` the recorded
loss equals `-((1-theta)*performance - theta*fairness)` for the scores the
cross-validated evaluator returns; in `frf_model.py` the evaluator returns
a single performance score and the recorded loss equals its negation
(theta only enters the classifier's constructor). -/
theorem C6_loss_formula :
    (∀ theta params folds,
      (fal_objective theta params folds).loss =
        -((1 - theta) * (cross_val_fal folds).1 -
          theta * (cross_val_fal folds).2)) ∧
    (∀ theta params folds p f, cross_val_adult folds = Except.ok (p, f) →
      adult_objective theta params folds =
        Except.ok ⟨STATUS_OK, -((1 - theta) * p - theta * f), params⟩) ∧
    (∀ params folds r, cross_val_frf folds = Except.ok r →
      frf_objective params folds = Except.ok ⟨STATUS_OK, -r, params⟩) := by
  refine ⟨?_, ?_, ?_⟩
  · intro theta params folds
    rfl
  · intro theta params folds p f h
    simp only [adult_objective, h]
  · intro params folds r h
    simp only [frf_objective, h]

/-- Witness for C6: the loss formulas applied at concrete scores.  The
adult evaluator on the perfect-prediction fold returns (1, 1), so with
theta = 1/3 the recorded loss is -((1 - 1/3)*1 - (1/3)*1); the frf
objective records the negated single score. -/
theorem C6_witness :
    adult_objective (mkRat 1 3) 5 c6Folds =
      Except.ok ⟨STATUS_OK, -((1 - mkRat 1 3) * 1 - mkRat 1 3 * 1), 5⟩ ∧
    frf_objective 6 c6Folds = Except.ok ⟨STATUS_OK, -1, 6⟩ := by
  have hfold : adult_fold_scores c6Fold1 = Except.ok (1, 1) := by
    simp only [adult_fold_scores, sk_roc_auc_score, c6Fold1]
    norm_num [PFloat.isfinite, PFloat.toRat, roc_auc_score, aucNum,
      posScores, negScores, pairTerm, abs_of_nonpos]
  have hcva : cross_val_adult c6Folds = Except.ok (1, 1) := by
    simp only [cross_val_adult, adult_fold_list, c6Folds, hfold]
    norm_num [listMean]
  have hfoldf : frf_fold_score c6Fold1 = Except.ok 1 := by
    simp only [frf_fold_score, sk_roc_auc_score, c6Fold1]
    norm_num [PFloat.isfinite, PFloat.toRat, roc_auc_score, aucNum,
      posScores, negScores, pairTerm]
  have hcvf : cross_val_frf c6Folds = Except.ok 1 := by
    simp only [cross_val_frf, frf_fold_list, c6Folds, hfoldf]
    norm_num [listMean]
  exact ⟨C6_loss_formula.2.1 (mkRat 1 3) 5 c6Folds 1 1 hcva,
    C6_loss_formula.2.2 6 c6Folds 1 hcvf⟩

end ShipBreaking

namespace ShipBreaking

/-- C7, evaluated at the failing input (code bug): the evaluator selects
rows by index LABEL membership in the splitter's POSITIONAL index sets.
For a table with index labels [0, 2] (as arises when the evaluator
receives an outer fold's training slice) and any 2-fold assignment, the
row labelled 2 is selected into neither partition, so the union of the
selected train and test rows is not the full set of rows — while the two
selections are still disjoint. -/
theorem C7_label_position_mismatch :
    select_rows (table_rows [0, 2]) (kfold_trainset [0, 1] 0) = [] ∧
    select_rows (table_rows [0, 2]) (kfold_testset [0, 1] 0) = [(0, 0)] ∧
    (1, 2) ∈ table_rows [0, 2] ∧
    (1, 2) ∉ select_rows (table_rows [0, 2]) (kfold_trainset [0, 1] 0) ∧
    (1, 2) ∉ select_rows (table_rows [0, 2]) (kfold_testset [0, 1] 0) := by
  decide

end ShipBreaking

namespace ShipBreaking

theorem optmap_isNone (f : Rat → Rat) (v : Option Rat) :
    (Option.map f v).isNone = v.isNone := by cases v <;> rfl

theorem optmap_isSome (f : Rat → Rat) (v : Option Rat) :
    (Option.map f v).isSome = v.isSome := by cases v <;> rfl

theorem any_isNone_map_optmap (f : Rat → Rat) (l : List (Option Rat)) :
    (l.map (Option.map f)).any Option.isNone = l.any Option.isNone := by
  induction l with
  | nil => rfl
  | cons v vs ih => cases v <;> simp [List.any_cons, ih]

theorem any_isSome_map_optmap (f : Rat → Rat) (l : List (Option Rat)) :
    (l.map (Option.map f)).any Option.isSome = l.any Option.isSome := by
  induction l with
  | nil => rfl
  | cons v vs ih => cases v <;> simp [List.any_cons, ih]

theorem robust_col_any_isNone (c : List (Option Rat)) :
    (robust_transform_col c).any Option.isNone = c.any Option.isNone := by
  simp only [robust_transform_col]
  exact any_isNone_map_optmap _ c

theorem robust_col_any_isSome (c : List (Option Rat)) :
    (robust_transform_col c).any Option.isSome = c.any Option.isSome := by
  simp only [robust_transform_col]
  exact any_isSome_map_optmap _ c

theorem robust_filter_anyNone_length (cols : List (List (Option Rat))) :
    ((cols.map robust_transform_col).filter
        (fun c => c.any Option.isNone)).length =
      (cols.filter (fun c => c.any Option.isNone)).length := by
  induction cols with
  | nil => rfl
  | cons c cs ih =>
    simp only [List.map_cons, List.filter_cons, robust_col_any_isNone]
    cases hc : c.any Option.isNone <;> simp [ih]

/-- Counterexample to C8: a numeric column with no missing value in the
training partition yields a single output column (sklearn's
`MissingIndicator` defaults to `features='missing-only'`), not the two
columns the claim promises for every numeric column. -/
theorem C8_counterexample :
    (num_transformer_fit_transform [[some 1, some 2, some 3]]).length = 1 ∧
    (num_transformer_fit_transform [[some 1, some 2, some 3]]).length ≠ 2 := by
  decide

/-- C8 (amended): for numeric columns each having at least one observed
value at fit time, the numeric sub-pipeline outputs one scaled-and-imputed
value column per input column plus one missingness-indicator column per
input column that contains a missing entry — so the output width is
`n + #{columns with a missing value}`, not `2n`. -/
theorem C8_missing_only_indicator (cols : List (List (Option Rat)))
    (h : ∀ c ∈ cols, c.any Option.isSome = true) :
    (num_transformer_fit_transform cols).length =
      cols.length + (cols.filter (fun c => c.any Option.isNone)).length := by
  have hall : ∀ c' ∈ missindicator_fit_transform (robust_fit_transform cols),
      c'.any Option.isSome = true := by
    intro c' hc'
    rcases List.mem_append.mp hc' with hmem | hmem
    · obtain ⟨c, hc, rfl⟩ := List.mem_map.mp hmem
      rw [robust_col_any_isSome]
      exact h c hc
    · obtain ⟨c0, hc0, rfl⟩ := List.mem_map.mp hmem
      have hnone := (List.mem_filter.mp hc0).2
      cases c0 with
      | nil => simp at hnone
      | cons v vs => simp
  have hfe : (missindicator_fit_transform (robust_fit_transform cols)).filter
        (fun c => c.any Option.isSome) =
      missindicator_fit_transform (robust_fit_transform cols) :=
    List.filter_eq_self.mpr hall
  calc (num_transformer_fit_transform cols).length
      = ((missindicator_fit_transform (robust_fit_transform cols)).filter
          (fun c => c.any Option.isSome)).length := by
        simp [num_transformer_fit_transform, simpleimputer_fit_transform]
    _ = (missindicator_fit_transform (robust_fit_transform cols)).length := by
        rw [hfe]
    _ = cols.length + (cols.filter (fun c => c.any Option.isNone)).length := by
        simp only [missindicator_fit_transform, robust_fit_transform,
          List.length_append, List.length_map]
        rw [robust_filter_anyNone_length]

/-- Witness for C8 at a column with one observed and one missing value:
the output has 1 + 1 = 2 columns. -/
theorem C8_witness :
    (∀ c ∈ [[some (1:Rat), none]], c.any Option.isSome = true) ∧
    (num_transformer_fit_transform [[some (1:Rat), none]]).length = 2 :=
  ⟨by decide,
   (C8_missing_only_indicator [[some (1:Rat), none]] (by decide)).trans (by decide)⟩

end ShipBreaking

namespace ShipBreaking

theorem clamp_column_idem (keep : List String) (col : List String) :
    clamp_column keep (clamp_column keep col) = clamp_column keep col := by
  induction col with
  | nil => rfl
  | cons v vs ih =>
    simp only [clamp_column, List.map_cons] at ih ⊢
    rw [ih]
    congr 1
    by_cases hv : keep.contains v
    · rw [if_pos hv, if_pos hv]
    · rw [if_neg hv]
      by_cases ho : keep.contains "other"
      · rw [if_pos ho]
      · rw [if_neg ho]

theorem transformCols_idem (d : String → Option (List String)) :
    ∀ X Y, transformCols d X = Except.ok Y → transformCols d Y = Except.ok Y := by
  intro X
  induction X with
  | nil =>
    intro Y h
    simp only [transformCols] at h
    obtain rfl : ([] : List (String × List String)) = Y := Except.ok.inj h
    rfl
  | cons col rest ih =>
    intro Y h
    simp only [transformCols] at h
    split at h
    · cases h
    · rename_i keep hkeep
      split at h
      · cases h
      · rename_i t ht
        obtain rfl : (col.1, clamp_column keep col.2) :: t = Y := Except.ok.inj h
        have htt := ih t ht
        simp only [transformCols, hkeep, htt, clamp_column_idem]

theorem fitDict_cons (d : String → Option (List String))
    (col : String × List String) (rest : List (String × List String)) :
    fitDict d (col :: rest) =
      fitDict (dictInsert d col.1 (get_values_to_keep (value_counts col.2))) rest := rfl

theorem fitDict_preserved (X : List (String × List String)) :
    ∀ (d : String → Option (List String)) (k : String),
      (∀ col ∈ X, col.1 ≠ k) → fitDict d X k = d k := by
  induction X with
  | nil => intro d k _; rfl
  | cons col rest ih =>
    intro d k h
    rw [fitDict_cons]
    rw [ih _ k (fun c hc => h c (List.mem_cons_of_mem _ hc))]
    have hne : col.1 ≠ k := h col (List.mem_cons_self _ _)
    have hbeq : (k == col.1) = false := by
      simp only [beq_eq_false_iff_ne]
      exact fun hh => hne hh.symm
    simp [dictInsert, hbeq]

theorem fit_transform_cols_cons (d : String → Option (List String))
    (col : String × List String) (rest : List (String × List String)) :
    fit_transform_cols d (col :: rest) =
      ((fit_transform_cols
          (dictInsert d col.1 (get_values_to_keep (value_counts col.2))) rest).1,
       (col.1, clamp_column (get_values_to_keep (value_counts col.2)) col.2) ::
         (fit_transform_cols
           (dictInsert d col.1 (get_values_to_keep (value_counts col.2))) rest).2) := rfl

theorem transform_after_fit_aux (X : List (String × List String)) :
    ∀ d : String → Option (List String), (X.map Prod.fst).Nodup →
      transformCols (fitDict d X) X = Except.ok ((fit_transform_cols d X).2) ∧
      fitDict d X = (fit_transform_cols d X).1 := by
  induction X with
  | nil => intro d _; exact ⟨rfl, rfl⟩
  | cons col rest ih =>
    intro d h
    rw [List.map_cons, List.nodup_cons] at h
    obtain ⟨hnotmem, hnd⟩ := h
    have hne : ∀ c ∈ rest, c.1 ≠ col.1 := by
      intro c hc hceq
      exact hnotmem (hceq ▸ List.mem_map_of_mem Prod.fst hc)
    obtain ⟨iht, ihd⟩ :=
      ih (dictInsert d col.1 (get_values_to_keep (value_counts col.2))) hnd
    have hlook : fitDict
        (dictInsert d col.1 (get_values_to_keep (value_counts col.2))) rest col.1 =
        some (get_values_to_keep (value_counts col.2)) := by
      rw [fitDict_preserved rest _ col.1 hne]
      simp [dictInsert]
    constructor
    · rw [fitDict_cons, fit_transform_cols_cons]
      simp only [transformCols, hlook, iht]
    · rw [fitDict_cons, fit_transform_cols_cons, ihd]

/-- C10: `Clamper.transform` is idempotent (transforming an already
transformed table returns it unchanged), and for every table with
distinct column names, `fit` followed by `transform` on the same table
produces exactly the `fit_transform` output, with identical fitted
state. -/
theorem C10_idem_and_fit_transform :
    (∀ c X Y, Clamper.transform c X = Except.ok Y →
      Clamper.transform c Y = Except.ok Y) ∧
    (∀ c X, (X.map Prod.fst).Nodup →
      ∃ Y, Clamper.transform (Clamper.fit c X) X = Except.ok Y ∧
        Clamper.fit_transform c X = (Clamper.fit c X, Y)) := by
  constructor
  · intro c X Y h
    exact transformCols_idem c.values_to_keep X Y h
  · intro c X h
    obtain ⟨ht, hd⟩ := transform_after_fit_aux X c.values_to_keep h
    refine ⟨(fit_transform_cols c.values_to_keep X).2, ht, ?_⟩
    simp only [Clamper.fit_transform, Clamper.fit]
    rw [← hd]

/-- Witness for C10: a concrete fitted clamper and one-column table. -/
theorem C10_witness :
    Clamper.transform c10Clamper c10Y = Except.ok c10Y ∧
    (∃ Y, Clamper.transform (Clamper.fit Clamper.init c10X) c10X = Except.ok Y ∧
      Clamper.fit_transform Clamper.init c10X = (Clamper.fit Clamper.init c10X, Y)) :=
  ⟨C10_idem_and_fit_transform.1 c10Clamper c10X c10Y rfl,
   C10_idem_and_fit_transform.2 Clamper.init c10X (by decide)⟩

end ShipBreaking
